import Mathlib

/-!
Verification of the pg_timetable core against its source.

Shallow embedding of:
* `internal/scheduler/shell.go` — `ExecuteShellCommand`, with the JSON
  decoder (`encoding/json`) and the process spawner (`exec.Command` /
  `CombinedOutput`) abstracted as an environment, since both are external
  collaborators of the function under test.
* `sql/ddl.sql` — the `timetable` schema's `task_chain` /
  `chain_execution_config` tables, the `trig_chain_fixer` trigger, the
  `task_chain_delete` function, and the foreign-key ON DELETE CASCADE
  behaviour that a `DELETE FROM base_task` sets in motion.
-/

namespace PgTimetable

/-! ## Shell command model (internal/scheduler/shell.go) -/

/-- Result of one `cmd.CombinedOutput(command, params...)` call:
the process ran and exited 0 (`ok` with its combined output), the process
ran and the error was an `exec.ExitError` (`exited` with
`ProcessState.ExitCode()`), or the spawn failed some other way (`failed`). -/
inductive RunResult where
  | ok (output : String)
  | exited (code : Int)
  | failed
deriving DecidableEq

/-- The two external collaborators of `ExecuteShellCommand`:
`decode` is `json.Unmarshal` into `[]string` (error payload dropped),
`run` is the commander's `CombinedOutput`. -/
structure ShellEnv where
  decode : String → Except Unit (List String)
  run : String → List String → RunResult

/-- The error values `ExecuteShellCommand` can report. -/
inductive ShellError where
  | emptyCommand
  | decodeError
  | exited (code : Int)
  | failed
deriving DecidableEq

/-- Observable outcome of `ExecuteShellCommand`: the returned exit code,
the returned error (`none` = nil), and the argument lists of the commander
invocations actually performed, in order. -/
structure ShellOutcome where
  exitCode : Int
  err : Option ShellError
  calls : List (List String)
deriving DecidableEq

/-- `strings.TrimSpace(command) == ""`: true exactly when every character
of the command is whitespace. -/
def trimSpaceIsEmpty (s : String) : Bool :=
  s.toList.all (fun c => c.isWhitespace)

/-- The per-value decoding step: `params := []string{}` and
`if val > "" { json.Unmarshal([]byte(val), &params) }`.  In Go a string is
greater than `""` exactly when it is non-empty. -/
def decodeVal (env : ShellEnv) (val : String) : Except Unit (List String) :=
  if val = "" then Except.ok [] else env.decode val

/-- The `for _, val := range paramValues` loop body of `ExecuteShellCommand`. -/
def shellLoop (env : ShellEnv) (command : String) : List String → ShellOutcome
  | [] => ⟨0, none, []⟩
  | val :: rest =>
    match decodeVal env val with
    | Except.error _ => ⟨-1, some ShellError.decodeError, []⟩
    | Except.ok params =>
      match env.run command params with
      | RunResult.ok _ =>
        let r := shellLoop env command rest
        ⟨r.exitCode, r.err, params :: r.calls⟩
      | RunResult.exited code => ⟨code, some (ShellError.exited code), [params]⟩
      | RunResult.failed => ⟨-1, some ShellError.failed, [params]⟩

/-- `ExecuteShellCommand` from `internal/scheduler/shell.go`: reject a
blank command, replace an empty value list by `[""]`, then run the loop. -/
def executeShellCommand (env : ShellEnv) (command : String)
    (paramValues : List String) : ShellOutcome :=
  if trimSpaceIsEmpty command then ⟨-1, some ShellError.emptyCommand, []⟩
  else shellLoop env command (if paramValues.isEmpty then [""] else paramValues)

/-- A parameter value on which the loop body succeeds: it decodes and its
invocation exits 0. -/
def stepOk (env : ShellEnv) (command val : String) : Prop :=
  ∃ ps out, decodeVal env val = Except.ok ps ∧
    env.run command ps = RunResult.ok out

/-- The argument list a value decodes to (junk when it does not decode). -/
def stepArgs (env : ShellEnv) (val : String) : List String :=
  match decodeVal env val with
  | Except.ok ps => ps
  | Except.error _ => []

/-! ## Schema model (sql/ddl.sql) -/

/-- One `timetable.task_chain` row (the columns the claims need).
`parent_id` is nullable; `chain_id` is the primary key. -/
structure ChainRow where
  chain_id : Nat
  parent_id : Option Nat
  task_id : Nat
deriving DecidableEq

/-- One `timetable.chain_execution_config` row (the columns the claims
need): primary key `id` and the nullable head pointer `chain_id`. -/
structure ConfigRow where
  id : Nat
  chain_id : Option Nat
deriving DecidableEq

/-- The database state touched by `task_chain_delete` and the
`trig_chain_fixer` trigger.  Tables are row lists. -/
structure DBState where
  task_chain : List ChainRow
  configs : List ConfigRow
deriving DecidableEq

/-- `SELECT parent_id FROM task_chain WHERE chain_id = q` — plpgsql's
`SELECT INTO` yields NULL when no row matches. -/
def parentOf (tc : List ChainRow) (q : Nat) : Option Nat :=
  match tc.find? (fun r => r.chain_id == q) with
  | none => none
  | some r => r.parent_id

/-- The child of `q`: the row whose `parent_id` equals `q`
(`parent_id` is UNIQUE, so at most one in a valid state). -/
def childOf (tc : List ChainRow) (q : Nat) : Option Nat :=
  (tc.find? (fun r => r.parent_id == some q)).map (fun r => r.chain_id)

/-- The head-finding loop of `trig_chain_fixer` (ddl.sql lines 160-170):
`rem` is the number of hops still allowed before `i > 100` raises
`'Infinite loop'`; a node whose `parent_id` is NULL ends the walk. -/
def trigWalkGo (tc : List ChainRow) : Nat → Nat → Except String Nat
  | 0, cur =>
    match parentOf tc cur with
    | none => Except.ok cur
    | some _ => Except.error "Infinite loop"
  | rem + 1, cur =>
    match parentOf tc cur with
    | none => Except.ok cur
    | some p => trigWalkGo tc rem p

/-- The full walk of `trig_chain_fixer` from a chain node to its head:
the counter `i` runs 1..101, allowing at most 100 hops. -/
def trigWalk (tc : List ChainRow) (start : Nat) : Except String Nat :=
  trigWalkGo tc 100 start

/-- The node reached after `k` `parent_id` hops from `cur`
(`none` once a NULL parent or missing row is crossed). -/
def nodeAt (tc : List ChainRow) : Nat → Nat → Option Nat
  | cur, 0 => some cur
  | cur, k + 1 =>
    match parentOf tc cur with
    | none => none
    | some p => nodeAt tc p k

/-- The recursive CTE of `task_chain_delete` (ddl.sql lines 209-215),
unrolled head-to-tail: each step follows the unique child.  Fuel bounds
the unrolling; callers pass the table size. -/
def chainSeqGo (tc : List ChainRow) : Nat → Nat → List Nat
  | 0, cur => [cur]
  | fuel + 1, cur =>
    cur :: (match childOf tc cur with
      | none => []
      | some c => chainSeqGo tc fuel c)

/-- The cursor `curs1` of `task_chain_delete`: the CTE's base row requires
`chain_id = h AND parent_id IS NULL`, so a non-head start yields nothing. -/
def cursorSeq (tc : List ChainRow) (h : Nat) : List Nat :=
  if tc.any (fun r => r.chain_id == h && r.parent_id.isNone) then
    chainSeqGo tc tc.length h
  else []

/-- The FETCH loop of `task_chain_delete` (ddl.sql lines 221-238): scan the
cursor output for the target, remembering the previously fetched id
(`chain_id_before`) and, on success, fetching one more row
(`chain_id_after`).  `none` models the not-in-chain early return. -/
def scanBA (prev : Option Nat) : List Nat → Nat → Option (Option Nat × Option Nat)
  | [], _ => none
  | x :: rest, t =>
    if x = t then some (prev, rest.head?) else scanBA (some x) rest t

/-- `UPDATE task_chain SET parent_id = newPar WHERE chain_id = id`. -/
def updateParent (tc : List ChainRow) (id : Nat) (newPar : Option Nat) :
    List ChainRow :=
  tc.map (fun r => if r.chain_id == id then ⟨r.chain_id, newPar, r.task_id⟩ else r)

/-- The transitive ON DELETE CASCADE closure over `task_chain.parent_id`:
starting from the directly deleted ids, repeatedly add every row whose
parent is already doomed. -/
def descClosure (tc : List ChainRow) : Nat → List Nat → List Nat
  | 0, seeds => seeds
  | fuel + 1, seeds =>
    let next := (tc.filter (fun r => match r.parent_id with
        | some p => seeds.contains p
        | none => false)).map (fun r => r.chain_id)
    let fresh := next.filter (fun c => !(seeds.contains c))
    if fresh.isEmpty then seeds else descClosure tc fuel (seeds ++ fresh)

/-- The success branch of `task_chain_delete` (ddl.sql lines 242-249),
taking the cursor scan's `(chain_id_before, chain_id_after)` pair: when
the target had no predecessor, re-point the config at the successor; set
the target's `parent_id` to NULL, set the successor's `parent_id` to the
predecessor, and delete the target — with the `ON DELETE CASCADE`
closure the final DELETE sets off on `task_chain.parent_id` and on
`chain_execution_config.chain_id`. -/
def tcdApply (st : DBState) (cfgid chain_id_ : Nat)
    (ba : Option Nat × Option Nat) : Bool × DBState :=
  let cfgs1 := if ba.1.isNone then
      st.configs.map (fun k => if k.id == cfgid then ⟨k.id, ba.2⟩ else k)
    else st.configs
  let tc1 := updateParent st.task_chain chain_id_ none
  let tc2 := match ba.2 with
    | none => tc1
    | some a => updateParent tc1 a ba.1
  let removed := descClosure tc2 tc2.length [chain_id_]
  (true, ⟨tc2.filter (fun r => !(removed.contains r.chain_id)),
          cfgs1.filter (fun k => match k.chain_id with
            | some x => !(removed.contains x)
            | none => true)⟩)

/-- `timetable.task_chain_delete(config_, chain_id_)` (ddl.sql lines
188-251).  Look up the config row; bail out returning false when it is
missing, when its `chain_id` is NULL, or when the cursor never yields the
target; otherwise perform the re-linking delete. -/
def task_chain_delete (st : DBState) (config_ : Option Nat) (chain_id_ : Nat) :
    Bool × DBState :=
  match st.configs.find? (fun cr => config_ == some cr.id) with
  | none => (false, st)
  | some cr =>
    match cr.chain_id with
    | none => (false, st)
    | some chain_id_1st_ =>
      match scanBA none (cursorSeq st.task_chain chain_id_1st_) chain_id_ with
      | none => (false, st)
      | some ba => tcdApply st cr.id chain_id_ ba

/-- The per-chain body of `trig_chain_fixer` folded over the affected
chain ids: walk to the head, read the head's `parent_id` into
`tmp_chain_head_id`, and `PERFORM task_chain_delete(tmp_chain_head_id,
orig)`.  A raised exception aborts the whole statement. -/
def trigFixGo : DBState → List Nat → Except String DBState
  | st, [] => Except.ok st
  | st, orig :: rest =>
    match trigWalk st.task_chain orig with
    | Except.error e => Except.error e
    | Except.ok hd =>
      trigFixGo (task_chain_delete st (parentOf st.task_chain hd) orig).2 rest

/-- `timetable.trig_chain_fixer()` fired for the deletion of base task
`task`: iterate over the chain rows using that task (ddl.sql lines
153-178). -/
def trig_chain_fixer (st : DBState) (task : Nat) : Except String DBState :=
  trigFixGo st
    ((st.task_chain.filter (fun r => r.task_id == task)).map (fun r => r.chain_id))

/-- `DELETE FROM base_task WHERE task_id = task`: the BEFORE DELETE
trigger runs first, then the FK `task_chain.task_id ON DELETE CASCADE`
removes the rows using the task, `task_chain.parent_id ON DELETE CASCADE`
removes their descendants, and `chain_execution_config.chain_id ON DELETE
CASCADE` removes configs pointing at removed rows. -/
def deleteBaseTask (st : DBState) (task : Nat) : Except String DBState :=
  match trig_chain_fixer st task with
  | Except.error e => Except.error e
  | Except.ok st1 =>
    let seeds := (st1.task_chain.filter (fun r => r.task_id == task)).map
      (fun r => r.chain_id)
    let removed := descClosure st1.task_chain st1.task_chain.length seeds
    Except.ok ⟨st1.task_chain.filter (fun r => !(removed.contains r.chain_id)),
      st1.configs.filter (fun k => match k.chain_id with
        | some x => !(removed.contains x)
        | none => true)⟩

/-- Build a stored linear chain: `mkChain par pairs` lays out rows for the
`(chain_id, task_id)` pairs, the first one with parent `par`, and each
later one pointing at its predecessor. -/
def mkChain : Option Nat → List (Nat × Nat) → List ChainRow
  | _, [] => []
  | par, (c, t) :: rest => ⟨c, par, t⟩ :: mkChain (some c) rest

/-- The parent value `mkChain` threads past a list of pairs. -/
def carryPar : Option Nat → List (Nat × Nat) → Option Nat
  | par, [] => par
  | _, (c, _) :: rest => carryPar (some c) rest

/-- Last element of a list, with an explicit default before it. -/
def lastD : Option Nat → List Nat → Option Nat
  | prev, [] => prev
  | _, x :: xs => lastD (some x) xs

/-! ## base_task schema row check (ddl.sql lines 20-26) -/

/-- `timetable.task_kind`. -/
inductive TaskKind where
  | SQL
  | SHELL
  | BUILTIN
deriving DecidableEq

/-- One candidate `timetable.base_task` row; `script` is nullable in the
candidate so the constraints can be stated. -/
structure BaseTaskRow where
  name : String
  kind : TaskKind
  script : Option String
deriving DecidableEq

/-- The row-level constraints of `timetable.base_task`: the column
declaration `script TEXT NOT NULL` and the table constraint
`CHECK (CASE WHEN kind <> 'BUILTIN' THEN script IS NOT NULL ELSE TRUE END)`. -/
def base_task_accepts (r : BaseTaskRow) : Bool :=
  r.script.isSome &&
    (if r.kind ≠ TaskKind.BUILTIN then r.script.isSome else true)

/-! ## Helper lemmas about the shell loop -/

theorem shellLoop_cons_ok {env : ShellEnv} {command val : String}
    {rest : List String} {ps : List String} {out : String}
    (hd : decodeVal env val = Except.ok ps)
    (hr : env.run command ps = RunResult.ok out) :
    shellLoop env command (val :: rest) =
      ⟨(shellLoop env command rest).exitCode, (shellLoop env command rest).err,
        ps :: (shellLoop env command rest).calls⟩ := by
  simp [shellLoop, hd, hr]

theorem stepArgs_eq {env : ShellEnv} {val : String} {ps : List String}
    (hd : decodeVal env val = Except.ok ps) : stepArgs env val = ps := by
  simp [stepArgs, hd]

theorem shellLoop_append_ok (env : ShellEnv) (command : String)
    (vs : List String) :
    ∀ pre : List String, (∀ u ∈ pre, stepOk env command u) →
    shellLoop env command (pre ++ vs) =
      ⟨(shellLoop env command vs).exitCode, (shellLoop env command vs).err,
        pre.map (stepArgs env) ++ (shellLoop env command vs).calls⟩ := by
  intro pre
  induction pre with
  | nil => intro _; simp
  | cons u pre ih =>
    intro h
    obtain ⟨ps, out, hd, hr⟩ := h u (List.mem_cons_self u pre)
    have hrec := ih (fun x hx => h x (List.mem_cons_of_mem u hx))
    rw [List.cons_append, shellLoop_cons_ok hd hr, hrec]
    simp [stepArgs_eq hd]

theorem shellLoop_all_ok (env : ShellEnv) (command : String) :
    ∀ vs : List String, (∀ v ∈ vs, stepOk env command v) →
    shellLoop env command vs = ⟨0, none, vs.map (stepArgs env)⟩ := by
  intro vs
  induction vs with
  | nil => intro _; rfl
  | cons v rest ih =>
    intro h
    obtain ⟨ps, out, hd, hr⟩ := h v (List.mem_cons_self v rest)
    rw [shellLoop_cons_ok hd hr, ih (fun x hx => h x (List.mem_cons_of_mem v hx))]
    simp [stepArgs_eq hd]

theorem shellLoop_err_none (env : ShellEnv) (command : String) :
    ∀ vs : List String, (shellLoop env command vs).err = none →
    ∀ v ∈ vs, stepOk env command v := by
  intro vs
  induction vs with
  | nil => intro _ v hv; cases hv
  | cons v rest ih =>
    intro h x hx
    rcases hd : decodeVal env v with e | ps
    · rw [show shellLoop env command (v :: rest) =
          ⟨-1, some ShellError.decodeError, []⟩ by simp [shellLoop, hd]] at h
      cases h
    · rcases hr : env.run command ps with out | code | _
      · rcases List.mem_cons.mp hx with rfl | hx'
        · exact ⟨ps, out, hd, hr⟩
        · rw [shellLoop_cons_ok hd hr] at h
          exact ih h x hx'
      · rw [show shellLoop env command (v :: rest) =
            ⟨code, some (ShellError.exited code), [ps]⟩ by
              simp [shellLoop, hd, hr]] at h
        cases h
      · rw [show shellLoop env command (v :: rest) =
            ⟨-1, some ShellError.failed, [ps]⟩ by simp [shellLoop, hd, hr]] at h
        cases h

theorem executeShellCommand_not_blank (env : ShellEnv) (command : String)
    (vals : List String) (h : trimSpaceIsEmpty command = false)
    (hne : vals ≠ []) :
    executeShellCommand env command vals = shellLoop env command vals := by
  cases vals with
  | nil => exact absurd rfl hne
  | cons a l => simp [executeShellCommand, h]

/-! ## Claims C3, C4, C5, C9 — ExecuteShellCommand -/

/-- Claim C3: a command that is only whitespace makes `ExecuteShellCommand`
return exit code `-1` with a non-nil error and no commander invocation;
and when a non-empty parameter value reached by the loop is not a valid
JSON string array (all earlier values having decoded and run fine), the
function returns `-1` with the decoding error, invoking the commander only
for the earlier values. -/
theorem C3_executeShellCommand_invalid_input :
    (∀ (env : ShellEnv) (command : String) (vals : List String),
      trimSpaceIsEmpty command = true →
      executeShellCommand env command vals =
        ⟨-1, some ShellError.emptyCommand, []⟩) ∧
    (∀ (env : ShellEnv) (command : String) (pre post : List String)
      (v : String),
      trimSpaceIsEmpty command = false →
      (∀ u ∈ pre, stepOk env command u) →
      v ≠ "" → env.decode v = Except.error () →
      executeShellCommand env command (pre ++ v :: post) =
        ⟨-1, some ShellError.decodeError, pre.map (stepArgs env)⟩) := by
  constructor
  · intro env command vals h
    simp [executeShellCommand, h]
  · intro env command pre post v hb hpre hv hdec
    rw [executeShellCommand_not_blank env command _ hb (by simp),
      shellLoop_append_ok env command _ pre hpre,
      show shellLoop env command (v :: post) =
        ⟨-1, some ShellError.decodeError, []⟩ by
          simp [shellLoop, decodeVal, hv, hdec]]
    simp

/-- Claim C3 witness at a concrete environment. -/
theorem C3_witness :
    executeShellCommand
      ⟨fun s => if s = "[]" then Except.ok [] else Except.error (),
        fun _ _ => RunResult.ok "o"⟩ " " ["x"] =
      ⟨-1, some ShellError.emptyCommand, []⟩ ∧
    executeShellCommand
      ⟨fun s => if s = "[]" then Except.ok [] else Except.error (),
        fun _ _ => RunResult.ok "o"⟩ "c" (["[]"] ++ "bad" :: ["z"]) =
      ⟨-1, some ShellError.decodeError, [[]]⟩ := by
  refine ⟨C3_executeShellCommand_invalid_input.1 _ " " ["x"] (by decide), ?_⟩
  have h := C3_executeShellCommand_invalid_input.2
    ⟨fun s => if s = "[]" then Except.ok [] else Except.error (),
      fun _ _ => RunResult.ok "o"⟩ "c" ["[]"] ["z"] "bad" (by decide)
    (by
      intro u hu
      rw [List.mem_singleton] at hu
      subst hu
      exact ⟨[], "o", rfl, rfl⟩)
    (by decide) rfl
  simpa [stepArgs, decodeVal] using h

/-- Claim C4: when the loop reaches a value whose decoded invocation ends
in an `exec.ExitError` with non-zero exit code `n`, the function returns
`(n, err)` with that error; when the spawn fails any other way it returns
`(-1, err)`. -/
theorem C4_executeShellCommand_exit_codes :
    ∀ (env : ShellEnv) (command : String) (pre post : List String)
      (v : String) (ps : List String) (n : Int),
      trimSpaceIsEmpty command = false →
      (∀ u ∈ pre, stepOk env command u) →
      decodeVal env v = Except.ok ps →
      ((env.run command ps = RunResult.exited n → n ≠ 0 →
        executeShellCommand env command (pre ++ v :: post) =
          ⟨n, some (ShellError.exited n), pre.map (stepArgs env) ++ [ps]⟩) ∧
       (env.run command ps = RunResult.failed →
        executeShellCommand env command (pre ++ v :: post) =
          ⟨-1, some ShellError.failed, pre.map (stepArgs env) ++ [ps]⟩)) := by
  intro env command pre post v ps n hb hpre hd
  constructor
  · intro hr _
    rw [executeShellCommand_not_blank env command _ hb (by simp),
      shellLoop_append_ok env command _ pre hpre,
      show shellLoop env command (v :: post) =
        ⟨n, some (ShellError.exited n), [ps]⟩ by simp [shellLoop, hd, hr]]
  · intro hr
    rw [executeShellCommand_not_blank env command _ hb (by simp),
      shellLoop_append_ok env command _ pre hpre,
      show shellLoop env command (v :: post) =
        ⟨-1, some ShellError.failed, [ps]⟩ by simp [shellLoop, hd, hr]]

/-- Claim C4 witness: a process exiting 3 and a failing spawn. -/
theorem C4_witness :
    executeShellCommand
      ⟨fun _ => Except.error (), fun _ _ => RunResult.exited 3⟩ "sh" [""] =
      ⟨3, some (ShellError.exited 3), [[]]⟩ ∧
    executeShellCommand
      ⟨fun _ => Except.error (), fun _ _ => RunResult.failed⟩ "sh" [""] =
      ⟨-1, some ShellError.failed, [[]]⟩ := by
  constructor
  · have h := (C4_executeShellCommand_exit_codes
      ⟨fun _ => Except.error (), fun _ _ => RunResult.exited 3⟩ "sh" [] [] ""
      [] 3 (by decide) (by intro u hu; cases hu) rfl).1 rfl (by decide)
    simpa using h
  · have h := (C4_executeShellCommand_exit_codes
      ⟨fun _ => Except.error (), fun _ _ => RunResult.failed⟩ "sh" [] [] ""
      [] 3 (by decide) (by intro u hu; cases hu) rfl).2 rfl
    simpa using h

/-- Claim C5: with an empty value list the command is invoked exactly once
with zero arguments; with a non-empty list it is invoked once per value
with the decoded argument lists and returns `(0, nil)` exactly when every
value decodes and its invocation succeeds. -/
theorem C5_executeShellCommand_per_value :
    (∀ (env : ShellEnv) (command : String),
      trimSpaceIsEmpty command = false →
      (executeShellCommand env command []).calls = [[]]) ∧
    (∀ (env : ShellEnv) (command : String) (vals : List String),
      trimSpaceIsEmpty command = false → vals ≠ [] →
      (∀ v ∈ vals, stepOk env command v) →
      executeShellCommand env command vals =
        ⟨0, none, vals.map (stepArgs env)⟩) ∧
    (∀ (env : ShellEnv) (command : String) (vals : List String),
      trimSpaceIsEmpty command = false → vals ≠ [] →
      (executeShellCommand env command vals).err = none →
      (executeShellCommand env command vals).exitCode = 0 ∧
        ∀ v ∈ vals, stepOk env command v) := by
  refine ⟨?_, ?_, ?_⟩
  · intro env command hb
    have hd : decodeVal env "" = Except.ok [] := rfl
    rcases hr : env.run command [] with out | code | _ <;>
      simp [executeShellCommand, hb, shellLoop, hd, hr]
  · intro env command vals hb hne hok
    rw [executeShellCommand_not_blank env command vals hb hne,
      shellLoop_all_ok env command vals hok]
  · intro env command vals hb hne herr
    rw [executeShellCommand_not_blank env command vals hb hne] at herr ⊢
    have hok := shellLoop_err_none env command vals herr
    rw [shellLoop_all_ok env command vals hok]
    exact ⟨rfl, hok⟩

/-- Claim C5 witness at a concrete environment. -/
theorem C5_witness :
    (executeShellCommand
      ⟨fun s => if s = "[\x22a\x22]" then Except.ok ["a"] else Except.error (),
        fun _ _ => RunResult.ok "o"⟩ "c" []).calls = [[]] ∧
    executeShellCommand
      ⟨fun s => if s = "[\x22a\x22]" then Except.ok ["a"] else Except.error (),
        fun _ _ => RunResult.ok "o"⟩ "c" ["[\x22a\x22]", ""] =
      ⟨0, none, [["a"], []]⟩ ∧
    (∀ v ∈ ["[\x22a\x22]", ""],
      stepOk
        ⟨fun s => if s = "[\x22a\x22]" then Except.ok ["a"] else Except.error (),
          fun _ _ => RunResult.ok "o"⟩ "c" v) := by
  refine ⟨C5_executeShellCommand_per_value.1 _ "c" (by decide), ?_, ?_⟩
  · have h := C5_executeShellCommand_per_value.2.1
      ⟨fun s => if s = "[\x22a\x22]" then Except.ok ["a"] else Except.error (),
        fun _ _ => RunResult.ok "o"⟩ "c" ["[\x22a\x22]", ""] (by decide)
      (by simp)
      (by
        intro v hv
        rcases List.mem_cons.mp hv with rfl | hv'
        · exact ⟨["a"], "o", rfl, rfl⟩
        · rw [List.mem_singleton] at hv'
          subst hv'
          exact ⟨[], "o", rfl, rfl⟩)
    simpa [stepArgs, decodeVal] using h
  · exact (C5_executeShellCommand_per_value.2.2
      ⟨fun s => if s = "[\x22a\x22]" then Except.ok ["a"] else Except.error (),
        fun _ _ => RunResult.ok "o"⟩ "c" ["[\x22a\x22]", ""] (by decide)
      (by simp) (by decide)).2

/-- Claim C9: values are processed strictly in order; the function returns
at the first failing value, the invocations already made for earlier
values stay made, the failing value causes at most one invocation, and no
later value is ever invoked. -/
theorem C9_executeShellCommand_first_failure :
    ∀ (env : ShellEnv) (command : String) (pre post : List String)
      (v : String),
      trimSpaceIsEmpty command = false →
      (∀ u ∈ pre, stepOk env command u) →
      ¬ stepOk env command v →
      (executeShellCommand env command (pre ++ v :: post)).err.isSome = true ∧
      ((executeShellCommand env command (pre ++ v :: post)).calls =
          pre.map (stepArgs env) ∨
       (executeShellCommand env command (pre ++ v :: post)).calls =
          pre.map (stepArgs env) ++ [stepArgs env v]) := by
  intro env command pre post v hb hpre hv
  rw [executeShellCommand_not_blank env command _ hb (by simp),
    shellLoop_append_ok env command _ pre hpre]
  rcases hd : decodeVal env v with e | ps
  · rw [show shellLoop env command (v :: post) =
        ⟨-1, some ShellError.decodeError, []⟩ by simp [shellLoop, hd]]
    exact ⟨rfl, Or.inl (by simp)⟩
  · rcases hr : env.run command ps with out | code | _
    · exact absurd ⟨ps, out, hd, hr⟩ hv
    · rw [show shellLoop env command (v :: post) =
          ⟨code, some (ShellError.exited code), [ps]⟩ by simp [shellLoop, hd, hr]]
      exact ⟨rfl, Or.inr (by simp [stepArgs_eq hd])⟩
    · rw [show shellLoop env command (v :: post) =
          ⟨-1, some ShellError.failed, [ps]⟩ by simp [shellLoop, hd, hr]]
      exact ⟨rfl, Or.inr (by simp [stepArgs_eq hd])⟩

/-- Claim C9 witness: the second of three values fails to decode; only the
first value's invocation happens. -/
theorem C9_witness :
    (executeShellCommand
      ⟨fun s => if s = "[]" then Except.ok [] else Except.error (),
        fun _ _ => RunResult.ok "o"⟩ "c" (["[]"] ++ "bad" :: ["z"])).err.isSome
      = true ∧
    ¬ stepOk
      ⟨fun s => if s = "[]" then Except.ok [] else Except.error (),
        fun _ _ => RunResult.ok "o"⟩ "c" "bad" := by
  have hnot : ¬ stepOk
      ⟨fun s => if s = "[]" then Except.ok [] else Except.error (),
        fun _ _ => RunResult.ok "o"⟩ "c" "bad" := by
    rintro ⟨ps, out, hd, -⟩
    simp [decodeVal] at hd
  refine ⟨?_, hnot⟩
  exact (C9_executeShellCommand_first_failure
    ⟨fun s => if s = "[]" then Except.ok [] else Except.error (),
      fun _ _ => RunResult.ok "o"⟩ "c" ["[]"] ["z"] "bad" (by decide)
    (by
      intro u hu
      rw [List.mem_singleton] at hu
      subst hu
      exact ⟨[], "o", rfl, rfl⟩)
    hnot).1

/-! ## Helper lemmas about the trigger walk -/

theorem trigWalkGo_zero (tc : List ChainRow) (cur : Nat) :
    trigWalkGo tc 0 cur =
      match parentOf tc cur with
      | none => Except.ok cur
      | some _ => Except.error "Infinite loop" := rfl

theorem trigWalkGo_succ (tc : List ChainRow) (r cur : Nat) :
    trigWalkGo tc (r + 1) cur =
      match parentOf tc cur with
      | none => Except.ok cur
      | some p => trigWalkGo tc r p := rfl

theorem nodeAt_succ (tc : List ChainRow) (cur k : Nat) :
    nodeAt tc cur (k + 1) =
      match parentOf tc cur with
      | none => none
      | some p => nodeAt tc p k := rfl

theorem trigWalkGo_reaches (tc : List ChainRow) :
    ∀ (k rem cur h : Nat), k ≤ rem → nodeAt tc cur k = some h →
    parentOf tc h = none → trigWalkGo tc rem cur = Except.ok h := by
  intro k
  induction k with
  | zero =>
    intro rem cur h _ hnode hpar
    rw [show cur = h from Option.some.inj hnode] at *
    rcases rem with - | r
    · rw [trigWalkGo_zero, hpar]
    · rw [trigWalkGo_succ, hpar]
  | succ k ih =>
    intro rem cur h hle hnode hpar
    rw [nodeAt_succ] at hnode
    rcases hp : parentOf tc cur with - | p
    · rw [hp] at hnode
      cases hnode
    · rw [hp] at hnode
      rcases rem with - | r
      · omega
      · calc trigWalkGo tc (r + 1) cur = trigWalkGo tc r p := by
              rw [trigWalkGo_succ, hp]
          _ = Except.ok h := ih r p h (by omega) hnode hpar

theorem trigWalkGo_overflow (tc : List ChainRow) :
    ∀ (rem cur : Nat), (nodeAt tc cur (rem + 1)).isSome = true →
    trigWalkGo tc rem cur = Except.error "Infinite loop" := by
  intro rem
  induction rem with
  | zero =>
    intro cur hnode
    rw [nodeAt_succ] at hnode
    rcases hp : parentOf tc cur with - | p
    · rw [hp] at hnode
      cases hnode
    · rw [trigWalkGo_zero, hp]
  | succ r ih =>
    intro cur hnode
    rw [nodeAt_succ] at hnode
    rcases hp : parentOf tc cur with - | p
    · rw [hp] at hnode
      cases hnode
    · rw [hp] at hnode
      calc trigWalkGo tc (r + 1) cur = trigWalkGo tc r p := by
            rw [trigWalkGo_succ, hp]
        _ = Except.error "Infinite loop" := ih p hnode

theorem tcd_config_missing (st : DBState) (cfg : Option Nat) (c : Nat)
    (hfind : st.configs.find? (fun k => cfg == some k.id) = none) :
    task_chain_delete st cfg c = (false, st) := by
  simp [task_chain_delete, hfind]

/-! ## Claim C6 — the 100-hop guard of trig_chain_fixer -/

/-- Claim C6: the head walk of `trig_chain_fixer` reaches a node whose
`parent_id` is NULL whenever one lies at most 100 `parent_id` hops away,
and raises the `'Infinite loop'` exception as soon as 100 hops were taken
and the walk is still on a node with a non-NULL parent — it never loops
forever. -/
theorem C6_trig_chain_fixer_walk_guard :
    (∀ (tc : List ChainRow) (start k h : Nat), k ≤ 100 →
      nodeAt tc start k = some h → parentOf tc h = none →
      trigWalk tc start = Except.ok h) ∧
    (∀ (tc : List ChainRow) (start : Nat),
      (nodeAt tc start 101).isSome = true →
      trigWalk tc start = Except.error "Infinite loop") := by
  constructor
  · intro tc start k h hk hnode hpar
    exact trigWalkGo_reaches tc k 100 start h hk hnode hpar
  · intro tc start hnode
    exact trigWalkGo_overflow tc 100 start hnode

/-- Claim C6 witness: a two-node chain walks to its head; a two-node
parent cycle hits the guard. -/
theorem C6_witness :
    trigWalk [⟨1, none, 5⟩, ⟨2, some 1, 5⟩] 2 = Except.ok 1 ∧
    trigWalk [⟨1, some 2, 5⟩, ⟨2, some 1, 5⟩] 1 =
      Except.error "Infinite loop" :=
  ⟨C6_trig_chain_fixer_walk_guard.1 [⟨1, none, 5⟩, ⟨2, some 1, 5⟩] 2 1 1
      (by decide) (by decide) (by decide),
    C6_trig_chain_fixer_walk_guard.2 [⟨1, some 2, 5⟩, ⟨2, some 1, 5⟩] 1
      (by decide)⟩

/-! ## Claim C7 — base_task script nullability -/

/-- Claim C7 counterexample: the claim says a `BUILTIN` row may have a
NULL `script`, but the column is declared `script TEXT NOT NULL`, so the
schema rejects a BUILTIN row with no script. -/
theorem C7_counterexample :
    base_task_accepts ⟨"Sleep", TaskKind.BUILTIN, none⟩ = false := by decide

/-- Claim C7 amended: the `base_task` schema requires a non-null `script`
for every row, whatever its kind; the CHECK constraint would exempt
`BUILTIN` rows, but the column's NOT NULL declaration still forbids a null
script for them. -/
theorem C7_base_task_script_not_null (r : BaseTaskRow) :
    base_task_accepts r = true ↔ r.script.isSome = true := by
  rcases r with ⟨n, k, s⟩
  cases k <;> cases s <;> simp [base_task_accepts]

/-! ## Claim C8 — early-return guards of task_chain_delete -/

theorem scanBA_none_of_not_mem :
    ∀ (xs : List Nat) (prev : Option Nat) (t : Nat), t ∉ xs →
    scanBA prev xs t = none := by
  intro xs
  induction xs with
  | nil => intro prev t _; rfl
  | cons x rest ih =>
    intro prev t ht
    rw [List.mem_cons, not_or] at ht
    rw [show scanBA prev (x :: rest) t = scanBA (some x) rest t by
      simp [scanBA, Ne.symm ht.1]]
    exact ih (some x) t ht.2

/-- Claim C8: `task_chain_delete` returns false and leaves the database
untouched when no `chain_execution_config` row has the given id (in
particular id 0 on a fresh database), when the found config's `chain_id`
is NULL, and when the given chain id is not among the nodes of the chain
walked from the config's head. -/
theorem C8_task_chain_delete_guards :
    (∀ (st : DBState) (cfg : Option Nat) (c : Nat),
      st.configs.find? (fun k => cfg == some k.id) = none →
      task_chain_delete st cfg c = (false, st)) ∧
    (∀ (st : DBState) (cfg : Option Nat) (c : Nat) (cr : ConfigRow),
      st.configs.find? (fun k => cfg == some k.id) = some cr →
      cr.chain_id = none →
      task_chain_delete st cfg c = (false, st)) ∧
    (∀ (st : DBState) (cfg : Option Nat) (c h : Nat) (cr : ConfigRow),
      st.configs.find? (fun k => cfg == some k.id) = some cr →
      cr.chain_id = some h →
      c ∉ cursorSeq st.task_chain h →
      task_chain_delete st cfg c = (false, st)) := by
  refine ⟨?_, ?_, ?_⟩
  · exact tcd_config_missing
  · intro st cfg c cr hfind hnull
    simp [task_chain_delete, hfind, hnull]
  · intro st cfg c h cr hfind hh hmem
    simp [task_chain_delete, hfind, hh,
      scanBA_none_of_not_mem (cursorSeq st.task_chain h) none c hmem]

/-- Claim C8 witness: the three guards at concrete states, including the
fresh-database call with config id 0. -/
theorem C8_witness :
    task_chain_delete ⟨[], []⟩ (some 0) 0 = (false, ⟨[], []⟩) ∧
    task_chain_delete ⟨[], [⟨5, none⟩]⟩ (some 5) 0 =
      (false, ⟨[], [⟨5, none⟩]⟩) ∧
    task_chain_delete ⟨[⟨1, none, 9⟩], [⟨5, some 1⟩]⟩ (some 5) 7 =
      (false, ⟨[⟨1, none, 9⟩], [⟨5, some 1⟩]⟩) :=
  ⟨C8_task_chain_delete_guards.1 ⟨[], []⟩ (some 0) 0 rfl,
    C8_task_chain_delete_guards.2.1 ⟨[], [⟨5, none⟩]⟩ (some 5) 0 ⟨5, none⟩
      rfl rfl,
    C8_task_chain_delete_guards.2.2 ⟨[⟨1, none, 9⟩], [⟨5, some 1⟩]⟩ (some 5)
      7 1 ⟨5, some 1⟩ rfl rfl (by decide)⟩

/-! ## Claim C1 — the trigger's surgery call is dead code -/

/-- Claim C1 (code bug): `trig_chain_fixer` passes the head's `parent_id`
— NULL by construction — as the `config_` argument of
`task_chain_delete`, whose config lookup then finds nothing, so every
surgery call returns false and changes nothing; after the trigger, the
`ON DELETE CASCADE` chain wipes the deleted node's whole tail.  On the
concrete chain 1→2→3 (tasks 101, 102, 103, config 10 at head 1), deleting
base task 102 leaves only node 1: node 3 is lost instead of being
re-linked under node 1 as the claim requires. -/
theorem C1_trig_chain_fixer_broken :
    (∀ (st : DBState) (c : Nat), task_chain_delete st none c = (false, st)) ∧
    deleteBaseTask
      ⟨[⟨1, none, 101⟩, ⟨2, some 1, 102⟩, ⟨3, some 2, 103⟩], [⟨10, some 1⟩]⟩
      102 = Except.ok ⟨[⟨1, none, 101⟩], [⟨10, some 1⟩]⟩ ∧
    deleteBaseTask
      ⟨[⟨1, none, 101⟩, ⟨2, some 1, 102⟩, ⟨3, some 2, 103⟩], [⟨10, some 1⟩]⟩
      102 ≠
      Except.ok ⟨[⟨1, none, 101⟩, ⟨3, some 1, 103⟩], [⟨10, some 1⟩]⟩ := by
  refine ⟨?_, rfl, ?_⟩
  · intro st c
    exact tcd_config_missing st none c
      (List.find?_eq_none.mpr (fun x _ => by simp))
  · intro hcontra
    exact absurd (Except.ok.inj hcontra) (by decide)

/-! ## Helper lemmas about stored chains -/

theorem mkChain_append : ∀ (xs ys : List (Nat × Nat)) (par : Option Nat),
    mkChain par (xs ++ ys) = mkChain par xs ++ mkChain (carryPar par xs) ys := by
  intro xs
  induction xs with
  | nil => intro ys par; rfl
  | cons a rest ih =>
    intro ys par
    rcases a with ⟨c, t⟩
    show (⟨c, par, t⟩ : ChainRow) :: mkChain (some c) (rest ++ ys) = _
    rw [ih ys (some c)]
    rfl

theorem mkChain_length : ∀ (xs : List (Nat × Nat)) (par : Option Nat),
    (mkChain par xs).length = xs.length := by
  intro xs
  induction xs with
  | nil => intro par; rfl
  | cons a rest ih =>
    intro par
    rcases a with ⟨c, t⟩
    show (mkChain (some c) rest).length + 1 = rest.length + 1
    rw [ih (some c)]

theorem mem_mkChain_id : ∀ (xs : List (Nat × Nat)) (par : Option Nat)
    (r : ChainRow), r ∈ mkChain par xs → r.chain_id ∈ xs.map Prod.fst := by
  intro xs
  induction xs with
  | nil => intro par r hr; cases hr
  | cons a rest ih =>
    intro par r hr
    rcases a with ⟨c, t⟩
    rcases List.mem_cons.mp hr with rfl | hr'
    · exact List.mem_cons_self _ _
    · exact List.mem_cons_of_mem _ (ih (some c) r hr')

theorem mem_mkChain_parent : ∀ (xs : List (Nat × Nat)) (par : Option Nat)
    (r : ChainRow), r ∈ mkChain par xs →
    r.parent_id = par ∨ ∃ q ∈ (xs.dropLast).map Prod.fst, r.parent_id = some q := by
  intro xs
  induction xs with
  | nil => intro par r hr; cases hr
  | cons a rest ih =>
    intro par r hr
    rcases a with ⟨c, t⟩
    rcases List.mem_cons.mp hr with rfl | hr'
    · exact Or.inl rfl
    · rcases rest with - | ⟨b, ys⟩
      · cases hr'
      · rcases ih (some c) r hr' with hp | ⟨q, hq, hp⟩
        · refine Or.inr ⟨c, ?_, hp⟩
          show c ∈ ((c, t) :: (b :: ys).dropLast).map Prod.fst
          exact List.mem_cons_self _ _
        · refine Or.inr ⟨q, ?_, hp⟩
          show q ∈ ((c, t) :: (b :: ys).dropLast).map Prod.fst
          exact List.mem_cons_of_mem _ hq

theorem childOf_append_left {l1 : List ChainRow} {q : Nat} {x : Nat}
    (l2 : List ChainRow) (h : childOf l1 q = some x) :
    childOf (l1 ++ l2) q = some x := by
  rcases hf : l1.find? (fun r => r.parent_id == some q) with - | r
  · rw [childOf, hf] at h; cases h
  · rw [childOf, hf] at h
    rw [childOf, List.find?_append, hf]
    simpa using h

theorem childOf_append_right {l1 : List ChainRow} {q : Nat}
    (l2 : List ChainRow) (h : childOf l1 q = none) :
    childOf (l1 ++ l2) q = childOf l2 q := by
  rcases hf : l1.find? (fun r => r.parent_id == some q) with - | r
  · rw [childOf, List.find?_append, hf]
    rfl
  · rw [childOf, hf] at h; cases h

theorem childOf_none (l : List ChainRow) (q : Nat)
    (h : ∀ r ∈ l, r.parent_id ≠ some q) : childOf l q = none := by
  have hf : l.find? (fun r => r.parent_id == some q) = none :=
    List.find?_eq_none.mpr (fun x hx => by simp [h x hx])
  rw [childOf, hf]
  rfl

theorem childOf_mkChain_last (xs : List (Nat × Nat)) (par : Option Nat)
    (q : Nat) (hpar : par ≠ some q)
    (hdrop : ∀ pr ∈ xs.dropLast, pr.1 ≠ q) :
    childOf (mkChain par xs) q = none := by
  apply childOf_none
  intro r hr
  rcases mem_mkChain_parent xs par r hr with hp | ⟨q', hq', hp⟩
  · rw [hp]; exact hpar
  · rw [hp]
    intro hEq
    rcases List.mem_map.mp hq' with ⟨pr, hpr, hfst⟩
    exact hdrop pr hpr (by rw [hfst]; exact Option.some.inj hEq)

theorem childOf_mkChain_mid : ∀ (done : List (Nat × Nat)) (par : Option Nat)
    (c t c2 t2 : Nat) (todo : List (Nat × Nat)),
    par ≠ some c → (∀ pr ∈ done, pr.1 ≠ c) →
    childOf (mkChain par (done ++ (c, t) :: (c2, t2) :: todo)) c = some c2 := by
  intro done
  induction done with
  | nil =>
    intro par c t c2 t2 todo hpar _
    show childOf
      (⟨c, par, t⟩ :: ⟨c2, some c, t2⟩ :: mkChain (some c2) todo) c = some c2
    rw [childOf, List.find?_cons_of_neg _ (by simp [hpar]),
      List.find?_cons_of_pos _ (by simp)]
    rfl
  | cons a rest ih =>
    intro par c t c2 t2 todo hpar hmem
    rcases a with ⟨d, td⟩
    show childOf
      (⟨d, par, td⟩ :: mkChain (some d) (rest ++ (c, t) :: (c2, t2) :: todo)) c
      = some c2
    rw [childOf, List.find?_cons_of_neg _ (by simp [hpar])]
    exact ih (some d) c t c2 t2 todo
      (by simp [hmem (d, td) (List.mem_cons_self _ _)])
      (fun pr hpr => hmem pr (List.mem_cons_of_mem _ hpr))

theorem chainSeqGo_succ (tc : List ChainRow) (f cur : Nat) :
    chainSeqGo tc (f + 1) cur =
      cur :: (match childOf tc cur with
        | none => []
        | some c => chainSeqGo tc f c) := rfl

theorem not_mem_map_fst {done : List (Nat × Nat)} {c : Nat}
    (h : c ∉ done.map Prod.fst) : ∀ pr ∈ done, pr.1 ≠ c := by
  intro pr hpr hEq
  exact h (hEq ▸ List.mem_map_of_mem Prod.fst hpr)

theorem nodup_split_head {l1 l2 : List Nat} {a : Nat}
    (h : (l1 ++ a :: l2).Nodup) : a ∉ l1 ∧ a ∉ l2 := by
  rw [List.nodup_middle, List.nodup_cons] at h
  rcases h with ⟨hmem, -⟩
  rw [List.mem_append] at hmem
  exact ⟨fun hx => hmem (Or.inl hx), fun hx => hmem (Or.inr hx)⟩

theorem chainSeqGo_chain (pairs : List (Nat × Nat)) (other : List ChainRow)
    (hN : (pairs.map Prod.fst).Nodup)
    (hO : ∀ r ∈ other, ∀ q ∈ pairs.map Prod.fst, r.parent_id ≠ some q) :
    ∀ (todo done : List (Nat × Nat)) (c t fuel : Nat),
      pairs = done ++ (c, t) :: todo → todo.length ≤ fuel →
      chainSeqGo (mkChain none pairs ++ other) fuel c =
        c :: todo.map Prod.fst := by
  intro todo
  induction todo with
  | nil =>
    intro done c t fuel hsplit _
    have hmemc : c ∈ pairs.map Prod.fst := by
      rw [hsplit]
      simp
    have hcd : ∀ pr ∈ done, pr.1 ≠ c := by
      apply not_mem_map_fst
      have hN' := hN
      rw [hsplit, List.map_append, List.map_cons] at hN'
      exact (nodup_split_head hN').1
    have hnone : childOf (mkChain none pairs ++ other) c = none := by
      rw [childOf_append_right other
        (by
          apply childOf_mkChain_last pairs none c (by simp)
          rw [hsplit, List.dropLast_concat]
          exact hcd)]
      exact childOf_none other c (fun r hr => hO r hr c hmemc)
    rcases fuel with - | f
    · rfl
    · rw [chainSeqGo_succ, hnone]
      rfl
  | cons a todo' ih =>
    rcases a with ⟨c2, t2⟩
    intro done c t fuel hsplit hfuel
    rcases fuel with - | f
    · simp at hfuel
    · have hcd : ∀ pr ∈ done, pr.1 ≠ c := by
        apply not_mem_map_fst
        have hN' := hN
        rw [hsplit, List.map_append, List.map_cons] at hN'
        exact (nodup_split_head hN').1
      have hsome : childOf (mkChain none pairs ++ other) c = some c2 := by
        apply childOf_append_left
        rw [hsplit]
        exact childOf_mkChain_mid done none c t c2 t2 todo' (by simp) hcd
      rw [chainSeqGo_succ, hsome]
      have hrec := ih (done ++ [(c, t)]) c2 t2 f
        (by rw [hsplit, List.append_assoc]; rfl)
        (by simp at hfuel; omega)
      show c :: chainSeqGo (mkChain none pairs ++ other) f c2 = _
      rw [hrec]
      rfl

theorem cursorSeq_chain (h0 t0 : Nat) (rest : List (Nat × Nat))
    (other : List ChainRow)
    (hN : (((h0, t0) :: rest).map Prod.fst).Nodup)
    (hO : ∀ r ∈ other, ∀ q ∈ ((h0, t0) :: rest).map Prod.fst,
      r.parent_id ≠ some q) :
    cursorSeq (mkChain none ((h0, t0) :: rest) ++ other) h0 =
      ((h0, t0) :: rest).map Prod.fst := by
  have hany : (mkChain none ((h0, t0) :: rest) ++ other).any
      (fun r => r.chain_id == h0 && r.parent_id.isNone) = true := by
    show ((⟨h0, none, t0⟩ : ChainRow) ::
      (mkChain (some h0) rest ++ other)).any _ = true
    rw [List.any_cons]
    simp
  rw [cursorSeq, if_pos hany]
  have hlen : rest.length ≤ (mkChain none ((h0, t0) :: rest) ++ other).length := by
    rw [List.length_append, mkChain_length]
    simp
    omega
  have := chainSeqGo_chain ((h0, t0) :: rest) other hN hO rest [] h0 t0
    (mkChain none ((h0, t0) :: rest) ++ other).length rfl hlen
  rw [this]
  rfl

theorem scanBA_found : ∀ (xs : List Nat) (prev : Option Nat) (t : Nat)
    (rest : List Nat), t ∉ xs →
    scanBA prev (xs ++ t :: rest) t = some (lastD prev xs, rest.head?) := by
  intro xs
  induction xs with
  | nil =>
    intro prev t rest _
    show (if t = t then some (prev, rest.head?) else _) = _
    rw [if_pos rfl]
    rfl
  | cons x xs ih =>
    intro prev t rest ht
    rw [List.mem_cons, not_or] at ht
    show (if x = t then _ else scanBA (some x) (xs ++ t :: rest) t) = _
    rw [if_neg (Ne.symm ht.1), ih (some x) t rest ht.2]
    rfl

theorem lastD_carry : ∀ (xs : List (Nat × Nat)) (x : Nat),
    lastD (some x) (xs.map Prod.fst) = carryPar (some x) xs := by
  intro xs
  induction xs with
  | nil => intro x; rfl
  | cons a rest ih =>
    intro x
    rcases a with ⟨c, t⟩
    show lastD (some c) (rest.map Prod.fst) = carryPar (some c) rest
    exact ih c

theorem carryPar_some : ∀ (xs : List (Nat × Nat)) (x : Nat),
    ∃ y, carryPar (some x) xs = some y ∧ y ∈ x :: xs.map Prod.fst := by
  intro xs
  induction xs with
  | nil => intro x; exact ⟨x, rfl, List.mem_cons_self _ _⟩
  | cons a rest ih =>
    intro x
    rcases a with ⟨c, t⟩
    rcases ih c with ⟨y, hy, hmem⟩
    refine ⟨y, hy, ?_⟩
    rcases List.mem_cons.mp hmem with rfl | hmem'
    · exact List.mem_cons_of_mem _ (List.mem_cons_self _ _)
    · exact List.mem_cons_of_mem _ (List.mem_cons_of_mem _ hmem')

theorem updateParent_cons (r : ChainRow) (l : List ChainRow) (x : Nat)
    (v : Option Nat) :
    updateParent (r :: l) x v =
      (if r.chain_id == x then (⟨r.chain_id, v, r.task_id⟩ : ChainRow) else r)
        :: updateParent l x v := rfl

theorem updateParent_append (l1 l2 : List ChainRow) (x : Nat)
    (v : Option Nat) :
    updateParent (l1 ++ l2) x v = updateParent l1 x v ++ updateParent l2 x v :=
  List.map_append _ l1 l2

theorem updateParent_skip (l : List ChainRow) (x : Nat) (v : Option Nat)
    (h : ∀ r ∈ l, r.chain_id ≠ x) : updateParent l x v = l := by
  induction l with
  | nil => rfl
  | cons r l ih =>
    rw [updateParent_cons, if_neg (by simp [h r (List.mem_cons_self r l)]),
      ih (fun q hq => h q (List.mem_cons_of_mem r hq))]

theorem updateParent_middle (A B : List ChainRow) (r : ChainRow) (x : Nat)
    (v : Option Nat) (hA : ∀ q ∈ A, q.chain_id ≠ x)
    (hB : ∀ q ∈ B, q.chain_id ≠ x) (hr : r.chain_id = x) :
    updateParent (A ++ r :: B) x v = A ++ ⟨r.chain_id, v, r.task_id⟩ :: B := by
  rw [updateParent_append, updateParent_cons, if_pos (by simp [hr]),
    updateParent_skip A x v hA, updateParent_skip B x v hB]

theorem removeRow_keep (l : List ChainRow) (x : Nat)
    (h : ∀ r ∈ l, r.chain_id ≠ x) :
    l.filter (fun r => !([x].contains r.chain_id)) = l :=
  List.filter_eq_self.mpr (fun r hr => by simp [h r hr])

theorem removeRow_middle (A B : List ChainRow) (r : ChainRow) (x : Nat)
    (hA : ∀ q ∈ A, q.chain_id ≠ x) (hB : ∀ q ∈ B, q.chain_id ≠ x)
    (hr : r.chain_id = x) :
    (A ++ r :: B).filter (fun q => !([x].contains q.chain_id)) = A ++ B := by
  rw [List.filter_append, List.filter_cons, if_neg (by simp [hr]),
    removeRow_keep A x hA, removeRow_keep B x hB]

theorem descClosure_succ (tc : List ChainRow) (fuel : Nat)
    (seeds : List Nat) :
    descClosure tc (fuel + 1) seeds =
      (let next := (tc.filter (fun r => match r.parent_id with
          | some p => seeds.contains p
          | none => false)).map (fun r => r.chain_id)
       let fresh := next.filter (fun c => !(seeds.contains c))
       if fresh.isEmpty then seeds else descClosure tc fuel (seeds ++ fresh)) :=
  rfl

theorem descClosure_single (tc : List ChainRow) (c : Nat)
    (h : ∀ r ∈ tc, r.parent_id ≠ some c) :
    ∀ fuel, descClosure tc fuel [c] = [c] := by
  intro fuel
  rcases fuel with - | f
  · rfl
  · rw [descClosure_succ]
    have hfil : tc.filter (fun r => match r.parent_id with
        | some p => [c].contains p
        | none => false) = [] := by
      rw [List.filter_eq_nil_iff]
      intro r hr
      rcases hp : r.parent_id with - | p
      · simp
      · have : p ≠ c := fun hEq => h r hr (by rw [hp, hEq])
        simp [this]
    rw [hfil]
    rfl

theorem find_config (cfgPre cfgPost : List ConfigRow) (x : ConfigRow)
    (cfgid : Nat) (hx : x.id = cfgid) (hpre : ∀ k ∈ cfgPre, k.id ≠ cfgid) :
    (cfgPre ++ x :: cfgPost).find?
      (fun k => (some cfgid : Option Nat) == some k.id) = some x := by
  induction cfgPre with
  | nil => exact List.find?_cons_of_pos _ (by simp [hx])
  | cons k pre ih =>
    rw [List.cons_append, List.find?_cons_of_neg _
      (by simp; exact fun hEq => hpre k (List.mem_cons_self k pre) hEq.symm)]
    exact ih (fun q hq => hpre q (List.mem_cons_of_mem k hq))

theorem config_map_skip (l : List ConfigRow) (cfgid : Nat) (v : Option Nat)
    (h : ∀ k ∈ l, k.id ≠ cfgid) :
    l.map (fun k => if k.id == cfgid then (⟨k.id, v⟩ : ConfigRow) else k)
      = l := by
  induction l with
  | nil => rfl
  | cons k l ih =>
    rw [List.map_cons, if_neg (by simp [h k (List.mem_cons_self k l)]),
      ih (fun q hq => h q (List.mem_cons_of_mem k hq))]

theorem config_update_middle (cfgPre cfgPost : List ConfigRow) (x : ConfigRow)
    (cfgid : Nat) (v : Option Nat) (hx : x.id = cfgid)
    (hpre : ∀ k ∈ cfgPre, k.id ≠ cfgid) (hpost : ∀ k ∈ cfgPost, k.id ≠ cfgid) :
    (cfgPre ++ x :: cfgPost).map
      (fun k => if k.id == cfgid then (⟨k.id, v⟩ : ConfigRow) else k) =
      cfgPre ++ (⟨x.id, v⟩ : ConfigRow) :: cfgPost := by
  rw [List.map_append, List.map_cons, if_pos (by simp [hx]),
    config_map_skip cfgPre cfgid v hpre, config_map_skip cfgPost cfgid v hpost]

theorem config_filter_keep (cfgs : List ConfigRow) (c : Nat)
    (h : ∀ k ∈ cfgs, k.chain_id ≠ some c) :
    cfgs.filter (fun k => match k.chain_id with
      | some x => !([c].contains x)
      | none => true) = cfgs := by
  apply List.filter_eq_self.mpr
  intro k hk
  rcases hck : k.chain_id with - | x
  · simp
  · have : x ≠ c := fun hEq => h k hk (by rw [hck, hEq])
    simp [this]

/-! ## Claim C2 — deleting an interior node re-links the chain -/

/-- Claim C2: for a config whose `chain_id` is the head of a stored linear
chain `h0 :: front ++ [c, s] ++ post` (ids pairwise distinct, any other
rows `other` disjoint from the chain), deleting the interior node `c` —
which has both a predecessor and the successor `s` — returns true, removes
`c`'s row, and re-parents `s` onto `c`'s former predecessor, leaving the
remaining nodes as the one linear chain `h0 :: front ++ [s] ++ post` and
the configs untouched. -/
theorem C2_task_chain_delete_interior
    (h0 t0 c tc0 s ts0 cfgid : Nat) (front post : List (Nat × Nat))
    (other : List ChainRow) (cfgPre cfgPost : List ConfigRow)
    (hN : (((h0, t0) :: (front ++ (c, tc0) :: (s, ts0) :: post)).map
      Prod.fst).Nodup)
    (hOP : ∀ r ∈ other,
      ∀ q ∈ ((h0, t0) :: (front ++ (c, tc0) :: (s, ts0) :: post)).map
        Prod.fst, r.parent_id ≠ some q)
    (hOI : ∀ r ∈ other,
      r.chain_id ∉ ((h0, t0) :: (front ++ (c, tc0) :: (s, ts0) :: post)).map
        Prod.fst)
    (hCpre : ∀ k ∈ cfgPre, k.id ≠ cfgid)
    (hCC : ∀ k ∈ cfgPre ++ (⟨cfgid, some h0⟩ : ConfigRow) :: cfgPost,
      k.chain_id ≠ some c) :
    task_chain_delete
      ⟨mkChain none ((h0, t0) :: (front ++ (c, tc0) :: (s, ts0) :: post))
        ++ other, cfgPre ++ ⟨cfgid, some h0⟩ :: cfgPost⟩ (some cfgid) c =
      (true,
        ⟨mkChain none ((h0, t0) :: (front ++ (s, ts0) :: post)) ++ other,
         cfgPre ++ ⟨cfgid, some h0⟩ :: cfgPost⟩) := by
  have hNkeep := hN
  rw [show ((h0, t0) :: (front ++ (c, tc0) :: (s, ts0) :: post)).map Prod.fst
    = h0 :: (front.map Prod.fst ++ c :: s :: post.map Prod.fst) from by simp]
    at hN
  have hh := List.nodup_cons.mp hN
  have hh1 : h0 ∉ front.map Prod.fst ∧ h0 ≠ c ∧ h0 ≠ s
      ∧ h0 ∉ post.map Prod.fst := by
    have h' := hh.1
    simp only [List.mem_append, List.mem_cons, not_or] at h'
    tauto
  have hcsplit := nodup_split_head hh.2
  have hcs : c ≠ s ∧ c ∉ post.map Prod.fst := by
    have h' := hcsplit.2
    simp only [List.mem_cons, not_or] at h'
    exact h'
  have hssplit : s ∉ front.map Prod.fst ++ [c] ∧ s ∉ post.map Prod.fst := by
    apply nodup_split_head
    rw [show front.map Prod.fst ++ [c] ++ s :: post.map Prod.fst
      = front.map Prod.fst ++ c :: s :: post.map Prod.fst from by simp]
    exact hh.2
  have hsf : s ∉ front.map Prod.fst ∧ s ≠ c := by
    have h' := hssplit.1
    simp only [List.mem_append, List.mem_singleton, not_or] at h'
    exact h'
  have hmc : c ∈ ((h0, t0) :: (front ++ (c, tc0) :: (s, ts0) :: post)).map
      Prod.fst := by simp
  have hms : s ∈ ((h0, t0) :: (front ++ (c, tc0) :: (s, ts0) :: post)).map
      Prod.fst := by simp
  obtain ⟨y, hy, hymem⟩ := carryPar_some front h0
  have hyc : y ≠ c := by
    intro hEq
    rcases List.mem_cons.mp hymem with h' | h'
    · exact hh1.2.1 (h'.symm.trans hEq)
    · exact hcsplit.1 (hEq ▸ h')
  have hfind := find_config cfgPre cfgPost ⟨cfgid, some h0⟩ cfgid rfl hCpre
  have hcur : cursorSeq
      (mkChain none ((h0, t0) :: (front ++ (c, tc0) :: (s, ts0) :: post))
        ++ other) h0
      = (h0 :: front.map Prod.fst) ++ c :: s :: post.map Prod.fst := by
    rw [cursorSeq_chain h0 t0 (front ++ (c, tc0) :: (s, ts0) :: post) other
      hNkeep hOP]
    simp
  have hscan : scanBA none
      ((h0 :: front.map Prod.fst) ++ c :: s :: post.map Prod.fst) c
      = some (some y, some s) := by
    rw [scanBA_found (h0 :: front.map Prod.fst) none c
      (s :: post.map Prod.fst)
      (by
        intro hmem
        rcases List.mem_cons.mp hmem with hEq | hmem'
        · exact hh1.2.1 hEq.symm
        · exact hcsplit.1 hmem')]
    show some (lastD (some h0) (front.map Prod.fst), some s) = _
    rw [lastD_carry, hy]
  have hA1c : ∀ q ∈ (⟨h0, none, t0⟩ : ChainRow) :: mkChain (some h0) front,
      q.chain_id ≠ c := by
    intro q hq
    rcases List.mem_cons.mp hq with rfl | hq'
    · exact hh1.2.1
    · exact fun hEq =>
        hcsplit.1 (hEq ▸ mem_mkChain_id front (some h0) q hq')
  have hA1s : ∀ q ∈ (⟨h0, none, t0⟩ : ChainRow) :: mkChain (some h0) front,
      q.chain_id ≠ s := by
    intro q hq
    rcases List.mem_cons.mp hq with rfl | hq'
    · exact hh1.2.2.1
    · exact fun hEq => hsf.1 (hEq ▸ mem_mkChain_id front (some h0) q hq')
  have hPc : ∀ q ∈ mkChain (some s) post, q.chain_id ≠ c :=
    fun q hq hEq => hcs.2 (hEq ▸ mem_mkChain_id post (some s) q hq)
  have hPs : ∀ q ∈ mkChain (some s) post, q.chain_id ≠ s :=
    fun q hq hEq => hssplit.2 (hEq ▸ mem_mkChain_id post (some s) q hq)
  have hOc : ∀ q ∈ other, q.chain_id ≠ c :=
    fun q hq hEq => hOI q hq (hEq ▸ hmc)
  have hOs : ∀ q ∈ other, q.chain_id ≠ s :=
    fun q hq hEq => hOI q hq (hEq ▸ hms)
  have hRestc : ∀ q ∈ mkChain (some s) post ++ other, q.chain_id ≠ c := by
    intro q hq
    rcases List.mem_append.mp hq with h' | h'
    · exact hPc q h'
    · exact hOc q h'
  have hRests : ∀ q ∈ mkChain (some s) post ++ other, q.chain_id ≠ s := by
    intro q hq
    rcases List.mem_append.mp hq with h' | h'
    · exact hPs q h'
    · exact hOs q h'
  have hTC : mkChain none
      ((h0, t0) :: (front ++ (c, tc0) :: (s, ts0) :: post)) ++ other
      = ((⟨h0, none, t0⟩ : ChainRow) :: mkChain (some h0) front)
        ++ ⟨c, some y, tc0⟩ :: ⟨s, some c, ts0⟩
          :: (mkChain (some s) post ++ other) := by
    rw [show mkChain none
      ((h0, t0) :: (front ++ (c, tc0) :: (s, ts0) :: post))
      = (⟨h0, none, t0⟩ : ChainRow) :: (mkChain (some h0) front
        ++ ⟨c, carryPar (some h0) front, tc0⟩ :: ⟨s, some c, ts0⟩
          :: mkChain (some s) post) from by
        show (⟨h0, none, t0⟩ : ChainRow)
          :: mkChain (some h0) (front ++ (c, tc0) :: (s, ts0) :: post) = _
        rw [mkChain_append]
        rfl]
    rw [hy]
    simp
  have e1 : updateParent
      (((⟨h0, none, t0⟩ : ChainRow) :: mkChain (some h0) front)
        ++ ⟨c, some y, tc0⟩ :: ⟨s, some c, ts0⟩
          :: (mkChain (some s) post ++ other)) c none
      = ((⟨h0, none, t0⟩ : ChainRow) :: mkChain (some h0) front)
        ++ ⟨c, none, tc0⟩ :: ⟨s, some c, ts0⟩
          :: (mkChain (some s) post ++ other) := by
    have hB : ∀ q ∈ (⟨s, some c, ts0⟩ : ChainRow)
        :: (mkChain (some s) post ++ other), q.chain_id ≠ c := by
      intro q hq
      rcases List.mem_cons.mp hq with rfl | hq'
      · exact hsf.2
      · exact hRestc q hq'
    exact updateParent_middle _ _ ⟨c, some y, tc0⟩ c none hA1c hB rfl
  have e2 : updateParent
      (((⟨h0, none, t0⟩ : ChainRow) :: mkChain (some h0) front)
        ++ ⟨c, none, tc0⟩ :: ⟨s, some c, ts0⟩
          :: (mkChain (some s) post ++ other)) s (some y)
      = ((⟨h0, none, t0⟩ : ChainRow) :: mkChain (some h0) front)
        ++ ⟨c, none, tc0⟩ :: ⟨s, some y, ts0⟩
          :: (mkChain (some s) post ++ other) := by
    have hre1 : ((⟨h0, none, t0⟩ : ChainRow) :: mkChain (some h0) front)
        ++ ⟨c, none, tc0⟩ :: ⟨s, some c, ts0⟩
          :: (mkChain (some s) post ++ other)
        = (((⟨h0, none, t0⟩ : ChainRow) :: mkChain (some h0) front)
            ++ [⟨c, none, tc0⟩])
          ++ ⟨s, some c, ts0⟩ :: (mkChain (some s) post ++ other) := by simp
    have hre2 : ((⟨h0, none, t0⟩ : ChainRow) :: mkChain (some h0) front)
        ++ ⟨c, none, tc0⟩ :: ⟨s, some y, ts0⟩
          :: (mkChain (some s) post ++ other)
        = (((⟨h0, none, t0⟩ : ChainRow) :: mkChain (some h0) front)
            ++ [⟨c, none, tc0⟩])
          ++ ⟨s, some y, ts0⟩ :: (mkChain (some s) post ++ other) := by simp
    rw [hre1, hre2]
    apply updateParent_middle _ _ ⟨s, some c, ts0⟩ s (some y) ?_ hRests rfl
    intro q hq
    rcases List.mem_append.mp hq with h' | h'
    · exact hA1s q h'
    · rw [List.mem_singleton] at h'
      rw [h']
      exact Ne.symm hsf.2
  have hdropF : ∀ q, q ∈ (front.dropLast).map Prod.fst →
      q ∈ front.map Prod.fst :=
    fun q hq => ((front.dropLast_sublist).map Prod.fst).subset hq
  have hdropP : ∀ q, q ∈ (post.dropLast).map Prod.fst →
      q ∈ post.map Prod.fst :=
    fun q hq => ((post.dropLast_sublist).map Prod.fst).subset hq
  have hT2par : ∀ r ∈ ((⟨h0, none, t0⟩ : ChainRow) :: mkChain (some h0) front)
      ++ ⟨c, none, tc0⟩ :: ⟨s, some y, ts0⟩
        :: (mkChain (some s) post ++ other), r.parent_id ≠ some c := by
    intro r hr
    rcases List.mem_append.mp hr with h' | h'
    · rcases List.mem_cons.mp h' with rfl | h''
      · simp
      · rcases mem_mkChain_parent front (some h0) r h'' with hp | ⟨q, hq, hp⟩
        · rw [hp]
          simp
          exact fun hEq => hh1.2.1 hEq
        · rw [hp]
          simp
          exact fun hEq => hcsplit.1 (hEq ▸ hdropF q hq)
    · rcases List.mem_cons.mp h' with rfl | h''
      · simp
      · rcases List.mem_cons.mp h'' with rfl | h3
        · simp
          exact fun hEq => hyc hEq
        · rcases List.mem_append.mp h3 with h4 | h4
          · rcases mem_mkChain_parent post (some s) r h4 with hp | ⟨q, hq, hp⟩
            · rw [hp]
              simp
              exact fun hEq => hsf.2 hEq
            · rw [hp]
              simp
              exact fun hEq => hcs.2 (hEq ▸ hdropP q hq)
          · exact hOP r h4 c hmc
  have e4 : (((⟨h0, none, t0⟩ : ChainRow) :: mkChain (some h0) front)
      ++ ⟨c, none, tc0⟩ :: ⟨s, some y, ts0⟩
        :: (mkChain (some s) post ++ other)).filter
      (fun r => !([c].contains r.chain_id))
      = ((⟨h0, none, t0⟩ : ChainRow) :: mkChain (some h0) front)
        ++ ⟨s, some y, ts0⟩ :: (mkChain (some s) post ++ other) := by
    apply removeRow_middle _ _ ⟨c, none, tc0⟩ c hA1c ?_ rfl
    intro q hq
    rcases List.mem_cons.mp hq with rfl | hq'
    · exact hsf.2
    · exact hRestc q hq'
  have e5 := config_filter_keep (cfgPre ++ ⟨cfgid, some h0⟩ :: cfgPost) c hCC
  have htarget : mkChain none ((h0, t0) :: (front ++ (s, ts0) :: post))
      ++ other
      = ((⟨h0, none, t0⟩ : ChainRow) :: mkChain (some h0) front)
        ++ ⟨s, some y, ts0⟩ :: (mkChain (some s) post ++ other) := by
    rw [show mkChain none ((h0, t0) :: (front ++ (s, ts0) :: post))
      = (⟨h0, none, t0⟩ : ChainRow) :: (mkChain (some h0) front
        ++ ⟨s, carryPar (some h0) front, ts0⟩ :: mkChain (some s) post)
      from by
        show (⟨h0, none, t0⟩ : ChainRow)
          :: mkChain (some h0) (front ++ (s, ts0) :: post) = _
        rw [mkChain_append]
        rfl]
    rw [hy]
    simp
  simp only [task_chain_delete, hfind, hcur, hscan, tcdApply,
    Option.isNone_some, Bool.false_eq_true, ite_false]
  rw [hTC, e1, e2, descClosure_single _ c hT2par, e4, e5, htarget]

/-- Claim C2 witness: deleting node 2 of the stored chain 1→2→3 under
config 10 leaves the chain 1→3 with node 3 re-parented onto node 1. -/
theorem C2_witness :
    task_chain_delete
      ⟨[⟨1, none, 101⟩, ⟨2, some 1, 102⟩, ⟨3, some 2, 103⟩],
        [⟨10, some 1⟩]⟩ (some 10) 2 =
      (true, ⟨[⟨1, none, 101⟩, ⟨3, some 1, 103⟩], [⟨10, some 1⟩]⟩) := by
  have h := C2_task_chain_delete_interior 1 101 2 102 3 103 10 [] [] [] [] []
    (by decide)
    (fun r hr => absurd hr (List.not_mem_nil r))
    (fun r hr => absurd hr (List.not_mem_nil r))
    (fun k hk => absurd hk (List.not_mem_nil k))
    (by
      intro k hk
      rw [show ([] : List ConfigRow) ++ (⟨10, some 1⟩ : ConfigRow) :: []
        = [⟨10, some 1⟩] from rfl, List.mem_singleton] at hk
      subst hk
      simp)
  simpa using h

/-! ## Claim C10 — deleting the head re-points the config -/

/-- Claim C10: when the node deleted by `task_chain_delete` is the head of
the chain (it has no predecessor), the function additionally updates the
referencing config row's `chain_id` to the deleted head's successor, so
the config stays attached to the remaining chain (which now starts at the
successor, whose `parent_id` becomes NULL). -/
theorem C10_task_chain_delete_head
    (hd thd s ts0 cfgid : Nat) (rest2 : List (Nat × Nat))
    (other : List ChainRow) (cfgPre cfgPost : List ConfigRow)
    (hN : (((hd, thd) :: (s, ts0) :: rest2).map Prod.fst).Nodup)
    (hOP : ∀ r ∈ other, ∀ q ∈ ((hd, thd) :: (s, ts0) :: rest2).map Prod.fst,
      r.parent_id ≠ some q)
    (hOI : ∀ r ∈ other,
      r.chain_id ∉ ((hd, thd) :: (s, ts0) :: rest2).map Prod.fst)
    (hCpre : ∀ k ∈ cfgPre, k.id ≠ cfgid)
    (hCpost : ∀ k ∈ cfgPost, k.id ≠ cfgid)
    (hCH : ∀ k ∈ cfgPre ++ cfgPost, k.chain_id ≠ some hd) :
    task_chain_delete
      ⟨mkChain none ((hd, thd) :: (s, ts0) :: rest2) ++ other,
       cfgPre ++ ⟨cfgid, some hd⟩ :: cfgPost⟩ (some cfgid) hd =
      (true,
        ⟨mkChain none ((s, ts0) :: rest2) ++ other,
         cfgPre ++ ⟨cfgid, some s⟩ :: cfgPost⟩) := by
  have hNkeep := hN
  rw [show ((hd, thd) :: (s, ts0) :: rest2).map Prod.fst
    = hd :: s :: rest2.map Prod.fst from by simp] at hN
  have hh := List.nodup_cons.mp hN
  have hh1 : hd ≠ s ∧ hd ∉ rest2.map Prod.fst := by
    have h' := hh.1
    simp only [List.mem_cons, not_or] at h'
    exact h'
  have hh2 := List.nodup_cons.mp hh.2
  have hmhd : hd ∈ ((hd, thd) :: (s, ts0) :: rest2).map Prod.fst := by simp
  have hms : s ∈ ((hd, thd) :: (s, ts0) :: rest2).map Prod.fst := by simp
  have hfind := find_config cfgPre cfgPost ⟨cfgid, some hd⟩ cfgid rfl hCpre
  have hcur : cursorSeq
      (mkChain none ((hd, thd) :: (s, ts0) :: rest2) ++ other) hd
      = hd :: s :: rest2.map Prod.fst := by
    rw [cursorSeq_chain hd thd ((s, ts0) :: rest2) other hNkeep hOP]
    simp
  have hscan : scanBA none (hd :: s :: rest2.map Prod.fst) hd
      = some (none, some s) := by
    show (if hd = hd then some ((none : Option Nat),
      (s :: rest2.map Prod.fst).head?) else _) = _
    rw [if_pos rfl]
    rfl
  have hPhd : ∀ q ∈ mkChain (some s) rest2, q.chain_id ≠ hd :=
    fun q hq hEq => hh1.2 (hEq ▸ mem_mkChain_id rest2 (some s) q hq)
  have hPs : ∀ q ∈ mkChain (some s) rest2, q.chain_id ≠ s :=
    fun q hq hEq => hh2.1 (hEq ▸ mem_mkChain_id rest2 (some s) q hq)
  have hOhd : ∀ q ∈ other, q.chain_id ≠ hd :=
    fun q hq hEq => hOI q hq (hEq ▸ hmhd)
  have hOs : ∀ q ∈ other, q.chain_id ≠ s :=
    fun q hq hEq => hOI q hq (hEq ▸ hms)
  have hResthd : ∀ q ∈ mkChain (some s) rest2 ++ other, q.chain_id ≠ hd := by
    intro q hq
    rcases List.mem_append.mp hq with h' | h'
    · exact hPhd q h'
    · exact hOhd q h'
  have hRests : ∀ q ∈ mkChain (some s) rest2 ++ other, q.chain_id ≠ s := by
    intro q hq
    rcases List.mem_append.mp hq with h' | h'
    · exact hPs q h'
    · exact hOs q h'
  have hTC : mkChain none ((hd, thd) :: (s, ts0) :: rest2) ++ other
      = (⟨hd, none, thd⟩ : ChainRow) :: ⟨s, some hd, ts0⟩
          :: (mkChain (some s) rest2 ++ other) := by
    show ((⟨hd, none, thd⟩ : ChainRow) :: ⟨s, some hd, ts0⟩
      :: mkChain (some s) rest2) ++ other = _
    simp
  have e1 : updateParent
      ((⟨hd, none, thd⟩ : ChainRow) :: ⟨s, some hd, ts0⟩
        :: (mkChain (some s) rest2 ++ other)) hd none
      = (⟨hd, none, thd⟩ : ChainRow) :: ⟨s, some hd, ts0⟩
          :: (mkChain (some s) rest2 ++ other) := by
    have hB : ∀ q ∈ (⟨s, some hd, ts0⟩ : ChainRow)
        :: (mkChain (some s) rest2 ++ other), q.chain_id ≠ hd := by
      intro q hq
      rcases List.mem_cons.mp hq with rfl | hq'
      · exact fun hEq => hh1.1 hEq.symm
      · exact hResthd q hq'
    have := updateParent_middle []
      ((⟨s, some hd, ts0⟩ : ChainRow) :: (mkChain (some s) rest2 ++ other))
      ⟨hd, none, thd⟩ hd none (fun q hq => absurd hq (List.not_mem_nil q))
      hB rfl
    simpa using this
  have e2 : updateParent
      ((⟨hd, none, thd⟩ : ChainRow) :: ⟨s, some hd, ts0⟩
        :: (mkChain (some s) rest2 ++ other)) s none
      = (⟨hd, none, thd⟩ : ChainRow) :: ⟨s, none, ts0⟩
          :: (mkChain (some s) rest2 ++ other) := by
    have := updateParent_middle [(⟨hd, none, thd⟩ : ChainRow)]
      (mkChain (some s) rest2 ++ other) ⟨s, some hd, ts0⟩ s none
      (by
        intro q hq
        rw [List.mem_singleton] at hq
        subst hq
        exact hh1.1)
      hRests rfl
    simpa using this
  have hT2par : ∀ r ∈ (⟨hd, none, thd⟩ : ChainRow) :: ⟨s, none, ts0⟩
      :: (mkChain (some s) rest2 ++ other), r.parent_id ≠ some hd := by
    intro r hr
    rcases List.mem_cons.mp hr with rfl | h'
    · simp
    · rcases List.mem_cons.mp h' with rfl | h''
      · simp
      · rcases List.mem_append.mp h'' with h3 | h3
        · rcases mem_mkChain_parent rest2 (some s) r h3 with hp | ⟨q, hq, hp⟩
          · rw [hp]
            simp
            exact fun hEq => hh1.1 hEq.symm
          · rw [hp]
            simp
            intro hEq
            apply hh1.2
            rw [← hEq]
            exact ((rest2.dropLast_sublist).map Prod.fst).subset hq
        · exact hOP r h3 hd hmhd
  have e4 : ((⟨hd, none, thd⟩ : ChainRow) :: ⟨s, none, ts0⟩
      :: (mkChain (some s) rest2 ++ other)).filter
      (fun r => !([hd].contains r.chain_id))
      = (⟨s, none, ts0⟩ : ChainRow) :: (mkChain (some s) rest2 ++ other) := by
    have hB : ∀ q ∈ (⟨s, none, ts0⟩ : ChainRow)
        :: (mkChain (some s) rest2 ++ other), q.chain_id ≠ hd := by
      intro q hq
      rcases List.mem_cons.mp hq with rfl | hq'
      · exact fun hEq => hh1.1 hEq.symm
      · exact hResthd q hq'
    have := removeRow_middle []
      ((⟨s, none, ts0⟩ : ChainRow) :: (mkChain (some s) rest2 ++ other))
      ⟨hd, none, thd⟩ hd (fun q hq => absurd hq (List.not_mem_nil q)) hB rfl
    simpa using this
  have e3 : (cfgPre ++ (⟨cfgid, some hd⟩ : ConfigRow) :: cfgPost).map
      (fun k => if k.id == cfgid then (⟨k.id, some s⟩ : ConfigRow) else k)
      = cfgPre ++ ⟨cfgid, some s⟩ :: cfgPost := by
    have := config_update_middle cfgPre cfgPost ⟨cfgid, some hd⟩ cfgid
      (some s) rfl hCpre hCpost
    simpa using this
  have e5 : (cfgPre ++ (⟨cfgid, some s⟩ : ConfigRow) :: cfgPost).filter
      (fun k => match k.chain_id with
        | some x => !([hd].contains x)
        | none => true) = cfgPre ++ ⟨cfgid, some s⟩ :: cfgPost := by
    apply config_filter_keep
    intro k hk
    rcases List.mem_append.mp hk with h' | h'
    · exact hCH k (List.mem_append.mpr (Or.inl h'))
    · rcases List.mem_cons.mp h' with rfl | h''
      · intro hEq
        exact hh1.1 (Option.some.inj hEq).symm
      · exact hCH k (List.mem_append.mpr (Or.inr h''))
  have htarget : mkChain none ((s, ts0) :: rest2) ++ other
      = (⟨s, none, ts0⟩ : ChainRow) :: (mkChain (some s) rest2 ++ other) := by
    show ((⟨s, none, ts0⟩ : ChainRow) :: mkChain (some s) rest2) ++ other = _
    simp
  simp only [task_chain_delete, hfind, hcur, hscan, tcdApply,
    Option.isNone_none, if_true]
  rw [hTC, e1, e2, descClosure_single _ hd hT2par, e4, e3, e5, htarget]

/-- Claim C10 witness: deleting head 1 of the chain 1→2→3 re-points config
10 at node 2, which becomes the new head. -/
theorem C10_witness :
    task_chain_delete
      ⟨[⟨1, none, 101⟩, ⟨2, some 1, 102⟩, ⟨3, some 2, 103⟩],
        [⟨10, some 1⟩]⟩ (some 10) 1 =
      (true, ⟨[⟨2, none, 102⟩, ⟨3, some 2, 103⟩], [⟨10, some 2⟩]⟩) := by
  have h := C10_task_chain_delete_head 1 101 2 102 10 [(3, 103)] [] [] []
    (by decide)
    (fun r hr => absurd hr (List.not_mem_nil r))
    (fun r hr => absurd hr (List.not_mem_nil r))
    (fun k hk => absurd hk (List.not_mem_nil k))
    (fun k hk => absurd hk (List.not_mem_nil k))
    (fun k hk => absurd hk (List.not_mem_nil k))
  simpa using h

end PgTimetable
